import Mathlib

/-!
Verification of the overlay routing core (`common` crate): a shallow embedding of
`assembler.rs`, `network.rs` and `routing_handler.rs`, together with theorems
settling the specification claims about fragment reassembly, topology
maintenance, breadth-first path finding and the routing handler.

Machine integers (`u8` node ids, `u64` counters and sizes) are modelled as `Nat`:
no claim involves wrap-around arithmetic.  Rust panics (out-of-bounds indexing,
`unwrap` on `None`, `copy_from_slice` length mismatch) are modelled by returning
`none` from the embedded operation.  Channel sends are modelled by a boolean
"delivers" flag per neighbor and an explicit event trace.
-/

/-! ## Association lists standing in for `HashMap` -/

def lookupKV {κ α : Type} [DecidableEq κ] : List (κ × α) → κ → Option α
  | [], _ => none
  | (k, v) :: rest, key => if k = key then some v else lookupKV rest key

def containsKV {κ α : Type} [DecidableEq κ] (m : List (κ × α)) (key : κ) : Bool :=
  (lookupKV m key).isSome

def insertKV {κ α : Type} [DecidableEq κ] : List (κ × α) → κ → α → List (κ × α)
  | [], key, v => [(key, v)]
  | (k, w) :: rest, key, v =>
      if k = key then (key, v) :: rest else (k, w) :: insertKV rest key v

def removeKV {κ α : Type} [DecidableEq κ] : List (κ × α) → κ → List (κ × α)
  | [], _ => []
  | (k, w) :: rest, key => if k = key then rest else (k, w) :: removeKV rest key

/-! ## `assembler.rs` -/

/-- Wire fragment from the underlying network library (`wg_internal::packet::Fragment`):
`data` is a fixed 128-byte array, `length` the number of meaningful bytes. -/
structure Fragment where
  fragment_index : Nat
  total_n_fragments : Nat
  length : Nat
  data : List Nat
deriving DecidableEq, Inhabited

/-- State of `FragmentAssembler`: three maps keyed by `(session_id, sender)`. -/
structure FragmentAssembler where
  fragments : List ((Nat × Nat) × List Fragment)
  expected_fragments : List ((Nat × Nat) × Nat)
  received_fragments : List ((Nat × Nat) × List Bool)
deriving DecidableEq

def FragmentAssembler.new : FragmentAssembler :=
  { fragments := [], expected_fragments := [], received_fragments := [] }

/-- `FragmentAssembler::sort_by_id`: clones the list, then writes each fragment at
position `fragment_index`.  An index out of range panics (`none`). -/
def FragmentAssembler.sort_by_id (fragments : List Fragment) : Option (List Fragment) :=
  fragments.foldl
    (fun acc f => acc.bind fun result =>
      if f.fragment_index < result.length then some (result.set f.fragment_index f) else none)
    (some fragments)

/-- The reassembly loop body of `add_fragment`: `data` starts empty and each
iteration runs `data.copy_from_slice(&f.data)`, which panics (`none`) unless the
destination and source have equal length. -/
def FragmentAssembler.copy_loop (sorted : List Fragment) : Option (List Nat) :=
  sorted.foldl
    (fun acc f => acc.bind fun data =>
      if data.length = f.data.length then some f.data else none)
    (some ([] : List Nat))

/-- `FragmentAssembler::add_fragment`.  Returns `none` on panic, otherwise the
updated assembler and the reassembled payload when the session completed. -/
def FragmentAssembler.add_fragment (self : FragmentAssembler) (fragment : Fragment)
    (session_id : Nat) (sender : Nat) : Option (FragmentAssembler × Option (List Nat)) :=
  let communication_id := (session_id, sender)
  let self1 :=
    if containsKV self.fragments communication_id then self
    else
      { fragments := insertKV self.fragments communication_id [fragment],
        expected_fragments :=
          insertKV self.expected_fragments communication_id fragment.total_n_fragments,
        received_fragments :=
          insertKV self.received_fragments communication_id
            (List.replicate fragment.total_n_fragments false) }
  match lookupKV self1.received_fragments communication_id with
  | none => none
  | some received0 =>
    if fragment.fragment_index < received0.length then
      let received := received0.set fragment.fragment_index true
      let self2 := { self1 with
        received_fragments := insertKV self1.received_fragments communication_id received }
      match lookupKV self2.expected_fragments communication_id,
            lookupKV self2.fragments communication_id with
      | some expected, some fragments =>
        if fragments.length = expected ∧ received.all (fun b => b) then
          match FragmentAssembler.sort_by_id fragments with
          | none => none
          | some sorted =>
            match FragmentAssembler.copy_loop sorted with
            | none => none
            | some data =>
              some ({ fragments := removeKV self2.fragments communication_id,
                      expected_fragments := removeKV self2.expected_fragments communication_id,
                      received_fragments := removeKV self2.received_fragments communication_id },
                    some data)
        else some (self2, none)
      | _, _ => none
    else none

/-! Concrete fragments used to exercise the assembler. -/

def fragSingle : Fragment :=
  { fragment_index := 0, total_n_fragments := 1, length := 128, data := List.replicate 128 3 }

def fragTwo0 : Fragment :=
  { fragment_index := 0, total_n_fragments := 2, length := 128, data := List.replicate 128 1 }

def fragTwo1 : Fragment :=
  { fragment_index := 1, total_n_fragments := 2, length := 72, data := List.replicate 128 2 }

set_option maxRecDepth 10000 in
/-- C1: feeding a correctly-fragmented two-fragment payload to `add_fragment`
does not reconstruct it: the second (last) fragment also returns no payload, and
the assembly entry is still present afterwards — because the stored fragment
list is only written on entry creation and never grows, completion is never
detected for `total_n_fragments > 1`.  This refutes the claimed reassembly
behavior on the code as written. -/
theorem add_fragment_two_fragments_never_complete :
    (FragmentAssembler.add_fragment FragmentAssembler.new fragTwo0 5 7).bind
      (fun r => (FragmentAssembler.add_fragment r.1 fragTwo1 5 7).map
        (fun r2 => (r.2, r2.2, containsKV r2.1.fragments (5, 7))))
      = some (none, none, true) := by
  rfl

set_option maxRecDepth 10000 in
/-- C4: `add_fragment` panics on a well-formed single-fragment session: the
completion branch executes `data.copy_from_slice(&f.data)` with an empty
destination vector and a 128-byte source, which panics (modelled as `none`).
This refutes the claim that the assembler never fails. -/
theorem add_fragment_single_fragment_panics :
    FragmentAssembler.add_fragment FragmentAssembler.new fragSingle 1 2 = none := by
  rfl

/-! ## `network.rs` -/

/-- `wg_internal::packet::NodeType`. -/
inductive NodeType
  | Client
  | Drone
  | Server
deriving DecidableEq, Inhabited

/-- `network::NetworkError`, including the `NoNeighborAssigned` variant referred
to by `routing_handler.rs`. -/
inductive NetworkError
  | TopologyError
  | PathNotFound (id : Nat)
  | NodeNotFound (id : Nat)
  | NodeIsNotANeighbor (id : Nat)
  | SendError (msg : String)
  | ControllerDisconnected
  | NoDestination
  | NoNeighborAssigned
deriving DecidableEq, Inhabited

/-- `network::Node`. -/
structure Node where
  id : Nat
  node_type : NodeType
  adjacents : List Nat
deriving DecidableEq, Inhabited

def Node.add_adjacent (self : Node) (adj : Nat) : Node :=
  { self with adjacents := self.adjacents ++ [adj] }

/-- `Node::remove_adjacent` removes the first occurrence (always called under a
`contains` guard, so the `expect` never fires). -/
def Node.remove_adjacent (self : Node) (adj : Nat) : Node :=
  { self with adjacents := self.adjacents.erase adj }

/-- `network::Network`. -/
structure Network where
  nodes : List Node
deriving DecidableEq, Inhabited

def Network.new (root : Node) : Network := { nodes := [root] }

/-- One iteration of the `add_node` loop: find the first stored node whose id
equals the declared adjacent `adj`; when either side has role `Drone` the source
runs `node.add_adjacent(*adj)` — appending `adj` itself, i.e. the found node's
own id, to its adjacency list. -/
def addNodeStep (new_type : NodeType) (adj : Nat) : List Node → List Node
  | [] => []
  | n :: rest =>
      if n.id = adj then
        (if n.node_type = NodeType.Drone ∨ new_type = NodeType.Drone
          then n.add_adjacent adj else n) :: rest
      else n :: addNodeStep new_type adj rest

/-- `Network::add_node`. -/
def Network.add_node (self : Network) (new_node : Node) : Network :=
  let nodes := new_node.adjacents.foldl
    (fun nodes adj => addNodeStep new_node.node_type adj nodes) self.nodes
  { nodes := nodes ++ [new_node] }

/-- Remove the first stored node with the given id (`iter().position` + `remove`). -/
def removeFirstNode : List Node → Nat → List Node
  | [], _ => []
  | n :: rest, node_id => if n.id = node_id then rest else n :: removeFirstNode rest node_id

/-- `Network::remove_node`. -/
def Network.remove_node (self : Network) (node_id : Nat) : Network :=
  let nodes := self.nodes.map
    (fun n => if node_id ∈ n.adjacents then n.remove_adjacent node_id else n)
  { nodes := removeFirstNode nodes node_id }

/-- Union the listed adjacents into the first node carrying `node_id`; `none`
when no node carries it. -/
def updateFirstNode : List Node → Nat → List Nat → Option (List Node)
  | [], _, _ => none
  | n :: rest, node_id, adjacents =>
      if n.id = node_id then
        some ({ n with adjacents :=
          adjacents.foldl (fun a adj => if adj ∈ a then a else a ++ [adj]) n.adjacents } :: rest)
      else (updateFirstNode rest node_id adjacents).map (n :: ·)

/-- `Network::update_node`. -/
def Network.update_node (self : Network) (node_id : Nat) (adjacents : List Nat) :
    Except NetworkError Network :=
  match updateFirstNode self.nodes node_id adjacents with
  | some nodes => Except.ok { nodes := nodes }
  | none => Except.error (NetworkError.NodeNotFound node_id)

def setTypeFirstNode : List Node → Nat → NodeType → List Node
  | [], _, _ => []
  | n :: rest, node_id, new_type =>
      if n.id = node_id then
        (if n.node_type ≠ new_type then { n with node_type := new_type } else n) :: rest
      else n :: setTypeFirstNode rest node_id new_type

/-- `Network::change_node_type`. -/
def Network.change_node_type (self : Network) (id : Nat) (new_type : NodeType) : Network :=
  { nodes := setTypeFirstNode self.nodes id new_type }

/-! Concrete topologies exercising `add_node`. -/

def netDroneRoot : Network := Network.new { id := 1, node_type := NodeType.Drone, adjacents := [] }

def nodeClient2 : Node := { id := 2, node_type := NodeType.Client, adjacents := [1] }

def netClientRoot : Network := Network.new { id := 1, node_type := NodeType.Client, adjacents := [] }

/-- C5: after `add_node` of client 2 declaring drone 1 adjacent, node 1's
adjacency list is `[1]` — the code appends the found node's own id instead of
the new node's id, so the claimed reverse adjacency `1 ∋ 2` does not hold. -/
theorem add_node_adds_self_loop_not_reverse_edge :
    ((netDroneRoot.add_node nodeClient2).nodes.map (fun n => (n.id, n.adjacents)))
      = [(1, [1]), (2, [1])] := by
  rfl

/-- C6 counterexample: adding client 2 with declared adjacent client 1 — two
endpoints claiming to neighbor each other without a drone — does not fail:
`add_node` is total, raises no `TopologyViolation` (no such variant exists), and
node 2 is appended to the topology. -/
theorem add_node_endpoint_pair_still_added :
    ((netClientRoot.add_node nodeClient2).nodes.map (fun n => (n.id, n.adjacents)))
      = [(1, []), (2, [1])] := by
  rfl

theorem addNodeStep_no_drone (adj : Nat) (nt : NodeType) (hnt : nt ≠ NodeType.Drone) :
    ∀ nodes : List Node, (∀ m ∈ nodes, m.node_type ≠ NodeType.Drone) →
      addNodeStep nt adj nodes = nodes := by
  intro nodes
  induction nodes with
  | nil => intro _; rfl
  | cons n rest ih =>
      intro hall
      have hn : n.node_type ≠ NodeType.Drone := hall n (List.mem_cons_self n rest)
      have hrest : ∀ m ∈ rest, m.node_type ≠ NodeType.Drone :=
        fun m hm => hall m (List.mem_cons_of_mem n hm)
      unfold addNodeStep
      by_cases hid : n.id = adj
      · simp [hid, hn, hnt]
      · simp [hid, ih hrest]

/-- C6 amended: when the new node and every stored node are endpoints (no
`Drone` on either side of any declared adjacency), `add_node` succeeds without
touching any existing adjacency list and still appends the new node. -/
theorem add_node_no_drone_appends_unchanged (net : Network) (n : Node)
    (hn : n.node_type ≠ NodeType.Drone)
    (hall : ∀ m ∈ net.nodes, m.node_type ≠ NodeType.Drone) :
    (net.add_node n).nodes = net.nodes ++ [n] := by
  unfold Network.add_node
  have key : ∀ adjs : List Nat, ∀ nodes : List Node,
      (∀ m ∈ nodes, m.node_type ≠ NodeType.Drone) →
      adjs.foldl (fun nodes adj => addNodeStep n.node_type adj nodes) nodes = nodes := by
    intro adjs
    induction adjs with
    | nil => intro nodes _; rfl
    | cons a rest ih =>
        intro nodes hnodes
        simp only [List.foldl_cons]
        rw [addNodeStep_no_drone a n.node_type hn nodes hnodes]
        exact ih nodes hnodes
  rw [key n.adjacents net.nodes hall]

/-- C6 witness: the amended statement holds at the concrete all-client topology. -/
theorem add_node_no_drone_appends_unchanged_witness :
    nodeClient2.node_type ≠ NodeType.Drone ∧
      (netClientRoot.add_node nodeClient2).nodes = netClientRoot.nodes ++ [nodeClient2] :=
  ⟨by decide, add_node_no_drone_appends_unchanged netClientRoot nodeClient2 (by decide)
    (by decide)⟩

/-! ## `Network::find_path` (breadth-first search) -/

/-- Adjacency used by the BFS loop: `self.nodes.iter().find(|n| n.get_id() == current)`,
with no neighbors when the id is absent. -/
def Network.adjOf (self : Network) (u : Nat) : List Nat :=
  match self.nodes.find? (fun n => n.id == u) with
  | some n => n.adjacents
  | none => []

/-- Inner `for neighbor in node.get_adjacents()` loop of the BFS: thread the
queue, visited set and parent map through the adjacency list. -/
def visitAdj (current : Nat) : List Nat → List Nat → List Nat → List (Nat × Nat) →
    List Nat × List Nat × List (Nat × Nat)
  | [], queue, visited, parent => (queue, visited, parent)
  | nb :: rest, queue, visited, parent =>
      if nb ∈ visited then visitAdj current rest queue visited parent
      else visitAdj current rest (queue ++ [nb]) (nb :: visited) ((nb, current) :: parent)

/-- The `while let Some(&parent) = parent_map.get(&current)` reconstruction loop.
The fuel `parent.length + 1` used below is enough for any parent map whose
chains are acyclic, which the BFS maintains. -/
def parentChain : Nat → List (Nat × Nat) → Nat → List Nat
  | 0, _, _ => []
  | fuel + 1, parent, current =>
      match lookupKV parent current with
      | none => []
      | some par => par :: parentChain fuel parent par

/-- The BFS `while let Some(current) = queue.pop_front()` loop, fuelled. -/
def bfsAux (net : Network) (destination : Nat) :
    Nat → List Nat → List Nat → List (Nat × Nat) → Option (List Nat)
  | 0, _, _, _ => none
  | _ + 1, [], _, _ => none
  | fuel + 1, current :: rest, visited, parent =>
      if current = destination then
        some ((destination :: parentChain (parent.length + 1) parent destination).reverse)
      else
        match visitAdj current (net.adjOf current) rest visited parent with
        | (queue, visited, parent) => bfsAux net destination fuel queue visited parent

/-- Every id the BFS can ever enqueue: the start node plus all adjacency lists. -/
def Network.allIds (self : Network) (start : Nat) : List Nat :=
  start :: (self.nodes.map Node.adjacents).flatten

/-- `Network::find_path`.  `none` models the panic of `self.nodes[0]` on an
empty node list; otherwise the result is the returned `Result`. -/
def Network.find_path (self : Network) (destination : Nat) :
    Option (Except NetworkError (List Nat)) :=
  match self.nodes with
  | [] => none
  | root :: _ =>
      let start := root.id
      match bfsAux self destination ((self.allIds start).length + 1) [start] [start] [] with
      | some path => some (Except.ok path)
      | none => some (Except.error (NetworkError.PathNotFound destination))

/-- One hop of a stored-adjacency path. -/
def adjStep (net : Network) (u v : Nat) : Prop := v ∈ net.adjOf u

instance (net : Network) (u v : Nat) : Decidable (adjStep net u v) := by
  unfold adjStep; infer_instance

/-- `l` is a walk from `a` to `b` along stored adjacency edges. -/
def IsPathFromTo (net : Network) (a b : Nat) (l : List Nat) : Prop :=
  l.head? = some a ∧ l.getLast? = some b ∧ List.Chain' (adjStep net) l

/-- The parent chain of `v`: the successive parents the reconstruction loop
visits, as a relation. -/
inductive ChainFrom (parent : List (Nat × Nat)) : Nat → List Nat → Prop
  | nil (v : Nat) : lookupKV parent v = none → ChainFrom parent v []
  | cons (v par : Nat) (l : List Nat) :
      lookupKV parent v = some par → ChainFrom parent par l → ChainFrom parent v (par :: l)

theorem chainFrom_deterministic {parent : List (Nat × Nat)} {v : Nat} {l₁ l₂ : List Nat}
    (h₁ : ChainFrom parent v l₁) (h₂ : ChainFrom parent v l₂) : l₁ = l₂ := by
  induction h₁ generalizing l₂ with
  | nil v hnone =>
      cases h₂ with
      | nil _ _ => rfl
      | cons _ par l hsome _ => rw [hnone] at hsome; cases hsome
  | cons v par l hsome hchain ih =>
      cases h₂ with
      | nil _ hnone => rw [hnone] at hsome; cases hsome
      | cons _ par2 l2 hsome2 hchain2 =>
          rw [hsome] at hsome2
          cases hsome2
          rw [ih hchain2]

theorem parentChain_eq_of_chainFrom {parent : List (Nat × Nat)} {v : Nat} {l : List Nat}
    (h : ChainFrom parent v l) : ∀ fuel, l.length < fuel → parentChain fuel parent v = l := by
  induction h with
  | nil v hnone =>
      intro fuel hf
      match fuel, hf with
      | fuel + 1, _ => simp [parentChain, hnone]
  | cons v par l hsome hchain ih =>
      intro fuel hf
      match fuel, hf with
      | fuel + 1, hf =>
          simp only [parentChain, hsome]
          rw [ih fuel (by simpa using Nat.lt_of_succ_lt_succ hf)]

theorem mem_keys_of_lookupKV_isSome {κ α : Type} [DecidableEq κ] {m : List (κ × α)} {key : κ}
    (h : (lookupKV m key).isSome) : key ∈ m.map Prod.fst := by
  induction m with
  | nil => simp [lookupKV] at h
  | cons kv rest ih =>
      obtain ⟨k, v⟩ := kv
      by_cases hk : k = key
      · subst hk; simp
      · simp only [lookupKV, if_neg hk] at h
        simpa using Or.inr (ih h)

theorem chainFrom_keys_isSome {parent : List (Nat × Nat)} {v : Nat} {l : List Nat}
    (h : ChainFrom parent v l) : ∀ x ∈ (v :: l).dropLast, (lookupKV parent x).isSome := by
  induction h with
  | nil v _ => intro x hx; simp at hx
  | cons v par l hsome hchain ih =>
      intro x hx
      rw [List.dropLast_cons₂, List.mem_cons] at hx
      rcases hx with rfl | hx
      · simp [hsome]
      · exact ih x hx

theorem chainFrom_length_le {parent : List (Nat × Nat)} {v : Nat} {l : List Nat}
    (h : ChainFrom parent v l) (hnd : (v :: l).Nodup) : l.length ≤ parent.length := by
  have hsub : (v :: l).dropLast ⊆ parent.map Prod.fst := fun x hx =>
    mem_keys_of_lookupKV_isSome (chainFrom_keys_isSome h x hx)
  have hnd2 : ((v :: l).dropLast).Nodup := (List.dropLast_sublist (v :: l)).nodup hnd
  have hlen : ((v :: l).dropLast).length ≤ (parent.map Prod.fst).length :=
    (hnd2.subperm hsub).length_le
  simpa using hlen

theorem lookupKV_append {κ α : Type} [DecidableEq κ] (l₁ l₂ : List (κ × α)) (key : κ) :
    lookupKV (l₁ ++ l₂) key =
      match lookupKV l₁ key with
      | some v => some v
      | none => lookupKV l₂ key := by
  induction l₁ with
  | nil => simp [lookupKV]
  | cons kv rest ih =>
      obtain ⟨k, v⟩ := kv
      by_cases hk : k = key
      · simp [lookupKV, hk]
      · simp only [List.cons_append, lookupKV, if_neg hk]
        exact ih

theorem lookupKV_pairMap (current : Nat) (l : List Nat) (x : Nat) :
    lookupKV (l.map (fun nb => (nb, current))) x = if x ∈ l then some current else none := by
  induction l with
  | nil => simp [lookupKV]
  | cons nb rest ih =>
      by_cases hx : nb = x
      · simp [lookupKV, hx]
      · simp only [List.map_cons, lookupKV, if_neg hx, ih]
        simp [List.mem_cons, Ne.symm hx]

/-- Invariant payload for one visited node: its parent chain is a loop-free
stored-adjacency path back to `start`, entirely inside `visited`. -/
def GoodChain (net : Network) (start : Nat) (visited : List Nat)
    (parent : List (Nat × Nat)) (v : Nat) (l : List Nat) : Prop :=
  ChainFrom parent v l ∧ (v :: l).Nodup ∧ (∀ x ∈ v :: l, x ∈ visited) ∧
    IsPathFromTo net start v ((v :: l).reverse)

theorem chainFrom_extend {parent newPairs : List (Nat × Nat)} {v : Nat} {l : List Nat}
    (h : ChainFrom parent v l) (hdisj : ∀ x ∈ v :: l, lookupKV newPairs x = none) :
    ChainFrom (newPairs ++ parent) v l := by
  induction h with
  | nil v hnone =>
      refine ChainFrom.nil v ?_
      rw [lookupKV_append, hdisj v (by simp), hnone]
  | cons v par l hsome hchain ih =>
      refine ChainFrom.cons v par l ?_ ?_
      · rw [lookupKV_append, hdisj v (by simp), hsome]
      · exact ih fun x hx => hdisj x (List.mem_cons_of_mem v hx)

theorem goodChain_extend {net : Network} {start : Nat} {visited visited' : List Nat}
    {parent newPairs : List (Nat × Nat)} {v : Nat} {l : List Nat}
    (h : GoodChain net start visited parent v l)
    (hdisj : ∀ x ∈ visited, lookupKV newPairs x = none)
    (hsub : ∀ x ∈ visited, x ∈ visited') :
    GoodChain net start visited' (newPairs ++ parent) v l := by
  obtain ⟨hchain, hnd, hmem, hpath⟩ := h
  exact ⟨chainFrom_extend hchain fun x hx => hdisj x (hmem x hx), hnd,
    fun x hx => hsub x (hmem x hx), hpath⟩

theorem visitAdj_spec (current : Nat) :
    ∀ (adjs queue visited : List Nat) (parent : List (Nat × Nat)),
    ∃ fresh : List Nat,
      visitAdj current adjs queue visited parent =
        (queue ++ fresh, fresh.reverse ++ visited,
          fresh.reverse.map (fun nb => (nb, current)) ++ parent) ∧
      fresh.Nodup ∧ (∀ x ∈ fresh, x ∈ adjs ∧ x ∉ visited) ∧
      (∀ x ∈ adjs, x ∉ visited → x ∈ fresh) := by
  intro adjs
  induction adjs with
  | nil =>
      intro queue visited parent
      exact ⟨[], by simp [visitAdj], by simp, by simp, by simp⟩
  | cons nb rest ih =>
      intro queue visited parent
      by_cases hnb : nb ∈ visited
      · obtain ⟨fresh, heq, hnd, hmem, hcompl⟩ := ih queue visited parent
        refine ⟨fresh, by simpa [visitAdj, hnb] using heq, hnd, ?_, ?_⟩
        · exact fun x hx => ⟨List.mem_cons_of_mem nb (hmem x hx).1, (hmem x hx).2⟩
        · intro x hx hxv
          rcases List.mem_cons.mp hx with rfl | hx
          · exact absurd hnb hxv
          · exact hcompl x hx hxv
      · obtain ⟨fresh, heq, hnd, hmem, hcompl⟩ :=
          ih (queue ++ [nb]) (nb :: visited) ((nb, current) :: parent)
        have hnotin : nb ∉ fresh := fun hmemf =>
          (hmem nb hmemf).2 (List.mem_cons_self nb visited)
        refine ⟨nb :: fresh, ?_, ?_, ?_, ?_⟩
        · simp only [visitAdj, if_neg hnb]
          rw [heq]
          simp [List.append_assoc]
        · exact List.nodup_cons.mpr ⟨hnotin, hnd⟩
        · intro x hx
          rcases List.mem_cons.mp hx with rfl | hx
          · exact ⟨List.mem_cons_self x rest, hnb⟩
          · refine ⟨List.mem_cons_of_mem nb (hmem x hx).1, fun hxv => (hmem x hx).2 ?_⟩
            exact List.mem_cons_of_mem nb hxv
        · intro x hx hxv
          rcases List.mem_cons.mp hx with rfl | hx
          · exact List.mem_cons_self x fresh
          · by_cases hxnb : x = nb
            · subst hxnb; exact List.mem_cons_self x fresh
            · refine List.mem_cons_of_mem nb (hcompl x hx ?_)
              simp [List.mem_cons, hxnb, hxv]

theorem forall₂_exists_of_mem_left {α β : Type} {R : α → β → Prop} :
    ∀ {as : List α} {bs : List β}, List.Forall₂ R as bs → ∀ {a : α}, a ∈ as →
      ∃ b ∈ bs, R a b := by
  intro as
  induction as with
  | nil => intro bs h a ha; simp at ha
  | cons x rest ih =>
      intro bs h a ha
      cases h with
      | cons hR htail =>
          rcases List.mem_cons.mp ha with rfl | ha
          · exact ⟨_, List.mem_cons_self _ _, hR⟩
          · obtain ⟨b, hb, hRb⟩ := ih htail ha
            exact ⟨b, List.mem_cons_of_mem _ hb, hRb⟩

theorem forall₂_replicate_right {α : Type} {R : α → Nat → Prop} {c : Nat} :
    ∀ {as : List α}, (∀ x ∈ as, R x c) → List.Forall₂ R as (List.replicate as.length c) := by
  intro as
  induction as with
  | nil => intro _; simp
  | cons x rest ih =>
      intro h
      simp only [List.length_cons, List.replicate_succ]
      exact List.Forall₂.cons (h x (List.mem_cons_self x rest))
        (ih fun y hy => h y (List.mem_cons_of_mem x hy))

theorem pairwise_le_replicate (n c : Nat) : List.Pairwise (· ≤ ·) (List.replicate n c) := by
  induction n with
  | zero => simp
  | succ n ih =>
      rw [List.replicate_succ]
      exact List.Pairwise.cons (fun y hy => le_of_eq (List.eq_of_mem_replicate hy).symm) ih

/-- The loop invariant of the BFS. -/
structure BfsInv (net : Network) (start : Nat)
    (queue visited : List Nat) (parent : List (Nat × Nat)) : Prop where
  visited_nodup : visited.Nodup
  queue_sub : ∀ u ∈ queue, u ∈ visited
  start_mem : start ∈ visited
  chains : ∀ v ∈ visited, ∃ l, GoodChain net start visited parent v l
  keys_visited : ∀ x, (lookupKV parent x).isSome → x ∈ visited ∧ x ≠ start
  visited_sub : ∀ x ∈ visited, x ∈ net.allIds start
  dlist : ∃ L : List Nat,
    List.Forall₂ (fun u dv => ∃ l, GoodChain net start visited parent u l ∧ dv = l.length + 1)
      queue L ∧ List.Pairwise (· ≤ ·) L ∧ (∀ h ∈ L.head?, ∀ x ∈ L, x ≤ h + 1)

theorem bfsInv_visited_le {net : Network} {start : Nat} {queue visited : List Nat}
    {parent : List (Nat × Nat)} (inv : BfsInv net start queue visited parent) :
    visited.length ≤ (net.allIds start).length :=
  (inv.visited_nodup.subperm fun _ hx => inv.visited_sub _ hx).length_le

theorem adjOf_sub_allIds {net : Network} {start u x : Nat} (hx : x ∈ net.adjOf u) :
    x ∈ net.allIds start := by
  unfold Network.adjOf at hx
  unfold Network.allIds
  cases hfind : net.nodes.find? (fun n => n.id == u) with
  | none => rw [hfind] at hx; simp at hx
  | some n =>
      rw [hfind] at hx
      have hn : n ∈ net.nodes := List.mem_of_find?_eq_some hfind
      refine List.mem_cons_of_mem _ (List.mem_flatten.mpr ⟨n.adjacents, ?_, hx⟩)
      exact List.mem_map.mpr ⟨n, hn, rfl⟩

theorem bfs_step (net : Network) (start current : Nat) (rest visited : List Nat)
    (parent : List (Nat × Nat))
    (inv : BfsInv net start (current :: rest) visited parent)
    (lcur : List Nat) (hcur : GoodChain net start visited parent current lcur) :
    ∃ fresh : List Nat,
      visitAdj current (net.adjOf current) rest visited parent =
        (rest ++ fresh, fresh.reverse ++ visited,
          fresh.reverse.map (fun nb => (nb, current)) ++ parent) ∧
      (∀ x ∈ fresh, x ∈ net.adjOf current ∧ x ∉ visited) ∧
      (∀ x ∈ net.adjOf current, x ∉ visited → x ∈ fresh) ∧
      (∀ v : Nat, ∀ l : List Nat, GoodChain net start visited parent v l →
        GoodChain net start (fresh.reverse ++ visited)
          (fresh.reverse.map (fun nb => (nb, current)) ++ parent) v l) ∧
      (∀ x ∈ fresh, GoodChain net start (fresh.reverse ++ visited)
          (fresh.reverse.map (fun nb => (nb, current)) ++ parent) x (current :: lcur)) ∧
      BfsInv net start (rest ++ fresh) (fresh.reverse ++ visited)
        (fresh.reverse.map (fun nb => (nb, current)) ++ parent) := by
  obtain ⟨fresh, heq, hnd, hmem, hcompl⟩ :=
    visitAdj_spec current (net.adjOf current) rest visited parent
  set newPairs := fresh.reverse.map (fun nb => (nb, current)) with hnp
  set visited' := fresh.reverse ++ visited with hv'
  set parent' := newPairs ++ parent with hp'
  have hlookup_new : ∀ x, lookupKV newPairs x = if x ∈ fresh then some current else none := by
    intro x
    rw [hnp, lookupKV_pairMap]
    simp [List.mem_reverse]
  have hdisj : ∀ x ∈ visited, lookupKV newPairs x = none := by
    intro x hx
    rw [hlookup_new]
    exact if_neg (fun hxf => (hmem x hxf).2 hx)
  have hsubvis : ∀ x ∈ visited, x ∈ visited' := fun x hx => List.mem_append_right _ hx
  have hpres : ∀ v : Nat, ∀ l : List Nat, GoodChain net start visited parent v l →
      GoodChain net start visited' parent' v l := by
    intro v l h
    exact goodChain_extend h hdisj hsubvis
  obtain ⟨hchain_cur, hnd_cur, hmem_cur, hpath_cur⟩ := hcur
  have hfreshchain : ∀ x ∈ fresh, GoodChain net start visited' parent' x (current :: lcur) := by
    intro x hxf
    have hxnv : x ∉ visited := (hmem x hxf).2
    have hchain' : ChainFrom parent' current lcur :=
      (hpres current lcur ⟨hchain_cur, hnd_cur, hmem_cur, hpath_cur⟩).1
    refine ⟨?_, ?_, ?_, ?_⟩
    · refine ChainFrom.cons x current lcur ?_ hchain'
      rw [hp', lookupKV_append, hlookup_new, if_pos hxf]
    · refine List.nodup_cons.mpr ⟨fun hxin => hxnv (hmem_cur x hxin), hnd_cur⟩
    · intro y hy
      rcases List.mem_cons.mp hy with rfl | hy
      · exact List.mem_append_left _ (List.mem_reverse.mpr hxf)
      · exact hsubvis y (hmem_cur y hy)
    · obtain ⟨hhead, hlast, hchainp⟩ := hpath_cur
      have hrev : (x :: current :: lcur).reverse = (current :: lcur).reverse ++ [x] := by
        simp
      refine ⟨?_, ?_, ?_⟩
      · rw [hrev, List.head?_append_of_ne_nil _ (by simp)]
        exact hhead
      · rw [hrev, List.getLast?_concat]
      · rw [hrev, List.chain'_append]
        refine ⟨hchainp, List.chain'_singleton x, ?_⟩
        intro a ha b hb
        simp only [List.head?_cons, Option.mem_def, Option.some.injEq] at hb
        subst hb
        rw [List.getLast?_reverse] at ha
        simp only [List.head?_cons, Option.mem_def, Option.some.injEq] at ha
        subst ha
        exact (hmem x hxf).1
  refine ⟨fresh, heq, hmem, hcompl, hpres, hfreshchain, ?_⟩
  have hnodup' : visited'.Nodup := by
    rw [hv', List.nodup_append]
    exact ⟨List.nodup_reverse.mpr hnd, inv.visited_nodup,
      fun x hx hy => (hmem x (List.mem_reverse.mp hx)).2 hy⟩
  have hstart' : start ∈ visited' := hsubvis start inv.start_mem
  refine ⟨hnodup', ?_, hstart', ?_, ?_, ?_, ?_⟩
  · intro u hu
    rcases List.mem_append.mp hu with hu | hu
    · exact hsubvis u (inv.queue_sub u (List.mem_cons_of_mem current hu))
    · exact List.mem_append_left _ (List.mem_reverse.mpr hu)
  · intro v hv
    rcases List.mem_append.mp hv with hv | hv
    · exact ⟨current :: lcur, hfreshchain v (List.mem_reverse.mp hv)⟩
    · obtain ⟨l, hl⟩ := inv.chains v hv
      exact ⟨l, hpres v l hl⟩
  · intro x hx
    rw [lookupKV_append] at hx
    cases hnew : lookupKV newPairs x with
    | some c =>
        have hxf : x ∈ fresh := by
          by_contra hxf
          rw [hlookup_new, if_neg hxf] at hnew
          cases hnew
        refine ⟨List.mem_append_left _ (List.mem_reverse.mpr hxf), ?_⟩
        intro hxs
        subst hxs
        exact (hmem _ hxf).2 inv.start_mem
    | none =>
        rw [hnew] at hx
        obtain ⟨hxv, hxs⟩ := inv.keys_visited x hx
        exact ⟨hsubvis x hxv, hxs⟩
  · intro x hx
    rcases List.mem_append.mp hx with hx | hx
    · exact adjOf_sub_allIds (hmem x (List.mem_reverse.mp hx)).1
    · exact inv.visited_sub x hx
  · obtain ⟨L, hF, hP, hB⟩ := inv.dlist
    cases hF with
    | cons hd0 hFrest =>
        rename_i d0 Lrest
        obtain ⟨l₀, hgc₀, hd0eq⟩ := hd0
        have hl₀ : l₀ = lcur := chainFrom_deterministic hgc₀.1 hchain_cur
        refine ⟨Lrest ++ List.replicate fresh.length (d0 + 1), ?_, ?_, ?_⟩
        · refine List.rel_append ?_ ?_
          · exact hFrest.imp fun u dv ⟨l, hgc, hdv⟩ => ⟨l, hpres u l hgc, hdv⟩
          · refine forall₂_replicate_right ?_
            intro x hxf
            refine ⟨current :: lcur, hfreshchain x hxf, ?_⟩
            simp [hd0eq, hl₀]
        · rw [List.pairwise_append]
          refine ⟨(List.pairwise_cons.mp hP).2, pairwise_le_replicate _ _, ?_⟩
          intro a ha b hb
          have hb1 : b = d0 + 1 := List.eq_of_mem_replicate hb
          have ha1 : a ≤ d0 + 1 := hB d0 (by simp) a (List.mem_cons_of_mem d0 ha)
          omega
        · intro h' hh' x hx
          cases Lrest with
          | nil =>
              simp only [List.nil_append] at hh' hx
              have hx1 : x = d0 + 1 := List.eq_of_mem_replicate hx
              have hh1 : h' = d0 + 1 := by
                have := List.mem_of_mem_head? hh'
                exact List.eq_of_mem_replicate this
              omega
          | cons hL tL =>
              simp only [List.cons_append, List.head?_cons, Option.mem_def,
                Option.some.injEq] at hh'
              have hd0le : d0 ≤ hL := (List.pairwise_cons.mp hP).1 hL (by simp)
              have hx2 : x ∈ (hL :: tL) ++ List.replicate fresh.length (d0 + 1) := hx
              rcases List.mem_append.mp hx2 with hx3 | hx3
              · have : x ≤ d0 + 1 := hB d0 (by simp) x (List.mem_cons_of_mem d0 hx3)
                omega
              · have hx1 : x = d0 + 1 := List.eq_of_mem_replicate hx3
                omega

theorem bfsAux_sound (net : Network) (start dest : Nat) :
    ∀ (fuel : Nat) (queue visited : List Nat) (parent : List (Nat × Nat)),
      BfsInv net start queue visited parent →
      ∀ p, bfsAux net dest fuel queue visited parent = some p →
        IsPathFromTo net start dest p := by
  intro fuel
  induction fuel with
  | zero =>
      intro queue visited parent _ p hp
      simp [bfsAux] at hp
  | succ fuel ih =>
      intro queue visited parent inv p hp
      match queue with
      | [] => simp [bfsAux] at hp
      | current :: rest =>
          by_cases hdest : current = dest
          · subst hdest
            simp only [bfsAux, eq_self_iff_true, if_true, Option.some.injEq] at hp
            obtain ⟨l, hgc⟩ := inv.chains current (inv.queue_sub current (by simp))
            obtain ⟨hchain, hnd, hmem, hpath⟩ := hgc
            have hlen : l.length < parent.length + 1 :=
              Nat.lt_succ_of_le (chainFrom_length_le hchain hnd)
            rw [parentChain_eq_of_chainFrom hchain _ hlen] at hp
            rw [← hp]
            exact hpath
          · simp only [bfsAux, if_neg hdest] at hp
            obtain ⟨lcur, hcur⟩ := inv.chains current (inv.queue_sub current (by simp))
            obtain ⟨fresh, heq, _, _, _, _, inv2⟩ :=
              bfs_step net start current rest visited parent inv lcur hcur
            rw [heq] at hp
            exact ih _ _ _ inv2 p hp

theorem forall₂_cons_inv {α β : Type} {R : α → β → Prop} {a : α} {l : List α} {L : List β}
    (h : List.Forall₂ R (a :: l) L) :
    ∃ b M, L = b :: M ∧ R a b ∧ List.Forall₂ R l M := by
  cases h with
  | cons h₁ h₂ => exact ⟨_, _, rfl, h₁, h₂⟩

theorem bfsInv_head_min {net : Network} {start current : Nat} {rest visited : List Nat}
    {parent : List (Nat × Nat)}
    (inv : BfsInv net start (current :: rest) visited parent)
    {lcur : List Nat} (hcur : GoodChain net start visited parent current lcur) :
    ∀ u ∈ current :: rest, ∀ lu, GoodChain net start visited parent u lu →
      lcur.length ≤ lu.length := by
  obtain ⟨L, hF, hP, _⟩ := inv.dlist
  obtain ⟨d0, Lrest, rfl, hd0, hFrest⟩ := forall₂_cons_inv hF
  obtain ⟨l₀, hgc₀, hd0eq⟩ := hd0
  have hl₀ : l₀ = lcur := chainFrom_deterministic hgc₀.1 hcur.1
  intro u hu lu hgcu
  rcases List.mem_cons.mp hu with rfl | hu
  · exact le_of_eq (congrArg List.length (chainFrom_deterministic hcur.1 hgcu.1))
  · obtain ⟨dv, hdv_mem, hR⟩ := forall₂_exists_of_mem_left hFrest hu
    obtain ⟨l₁, hgc₁, hdveq⟩ := hR
    have hl₁ : l₁ = lu := chainFrom_deterministic hgc₁.1 hgcu.1
    have hle : d0 ≤ dv := (List.pairwise_cons.mp hP).1 dv hdv_mem
    have e₀ : l₀.length = lcur.length := by rw [hl₀]
    have e₁ : l₁.length = lu.length := by rw [hl₁]
    omega

theorem split_last_mem (S : List Nat) :
    ∀ (q : List Nat) (u : Nat), q.head? = some u → u ∈ S →
      ∃ q₁ w q₂, q = q₁ ++ w :: q₂ ∧ w ∈ S ∧ (∀ x ∈ q₂, x ∉ S) := by
  intro q
  induction q using List.reverseRecOn with
  | nil => intro u h; simp at h
  | append_singleton q' a ih =>
      intro u hhead hu
      by_cases ha : a ∈ S
      · exact ⟨q', a, [], by simp, ha, by simp⟩
      · cases q' with
        | nil =>
            simp only [List.nil_append, List.head?_cons, Option.some.injEq] at hhead
            subst hhead
            exact absurd hu ha
        | cons b t =>
            have hhead' : (b :: t).head? = some u := by
              rw [List.head?_append] at hhead
              simpa using hhead
            obtain ⟨q₁, w, q₂, hsplit, hw, hq₂⟩ := ih u hhead' hu
            refine ⟨q₁, w, q₂ ++ [a], by simp [hsplit], hw, ?_⟩
            intro x hx
            rcases List.mem_append.mp hx with hx | hx
            · exact hq₂ x hx
            · simp only [List.mem_singleton] at hx
              subst hx
              exact ha

theorem not_nodup_decomp {l : List Nat} (h : ¬ l.Nodup) :
    ∃ x A B C, l = A ++ x :: B ++ x :: C := by
  induction l with
  | nil => simp at h
  | cons y t ih =>
      by_cases hy : y ∈ t
      · obtain ⟨B, C, hBC⟩ := List.mem_iff_append.mp hy
        exact ⟨y, [], B, C, by simp [hBC]⟩
      · have ht : ¬ t.Nodup := fun hnd => h (List.nodup_cons.mpr ⟨hy, hnd⟩)
        obtain ⟨x, A, B, C, hx⟩ := ih ht
        exact ⟨x, y :: A, B, C, by simp [hx]⟩

theorem path_shortcut {net : Network} {a b x : Nat} {A B C : List Nat}
    (h : IsPathFromTo net a b (A ++ x :: B ++ x :: C)) :
    IsPathFromTo net a b (A ++ x :: C) := by
  obtain ⟨hhead, hlast, hchain⟩ := h
  rw [List.chain'_append] at hchain
  obtain ⟨hcAB, hcC, hlink1⟩ := hchain
  rw [List.chain'_append] at hcAB
  obtain ⟨hcA, hcB, hlink2⟩ := hcAB
  refine ⟨?_, ?_, ?_⟩
  · rw [List.head?_append, List.head?_append] at hhead
    rw [List.head?_append]
    cases hA : A.head? <;> simp [hA] at hhead ⊢ <;> exact hhead
  · rw [List.getLast?_append_cons] at hlast
    rw [List.getLast?_append_cons]
    exact hlast
  · rw [List.chain'_append]
    refine ⟨hcA, hcC, ?_⟩
    intro p hp y hy
    simp only [List.head?_cons, Option.mem_def, Option.some.injEq] at hy
    subst hy
    exact hlink2 p hp x (by simp)

theorem exists_nodup_path (net : Network) (a b : Nat) :
    ∀ (n : Nat) (q : List Nat), q.length ≤ n → IsPathFromTo net a b q →
      ∃ q', IsPathFromTo net a b q' ∧ q'.Nodup ∧ q'.length ≤ q.length := by
  intro n
  induction n with
  | zero =>
      intro q hlen hq
      have : q = [] := List.length_eq_zero.mp (Nat.le_zero.mp hlen)
      subst this
      simp [IsPathFromTo] at hq
  | succ n ih =>
      intro q hlen hq
      by_cases hnd : q.Nodup
      · exact ⟨q, hq, hnd, le_refl _⟩
      · obtain ⟨x, A, B, C, hdecomp⟩ := not_nodup_decomp hnd
        subst hdecomp
        have hshort : IsPathFromTo net a b (A ++ x :: C) := path_shortcut hq
        have hlt : (A ++ x :: C).length < (A ++ x :: B ++ x :: C).length := by
          simp; omega
        obtain ⟨q', hq', hnd', hle'⟩ := ih (A ++ x :: C) (by omega) hshort
        exact ⟨q', hq', hnd', le_trans hle' (le_of_lt hlt)⟩

theorem bfsAux_complete (net : Network) (start dest : Nat) :
    ∀ (fuel : Nat) (queue visited : List Nat) (parent : List (Nat × Nat)),
      BfsInv net start queue visited parent →
      queue.length + ((net.allIds start).length - visited.length) < fuel →
      ∀ u ∈ queue, ∀ q, IsPathFromTo net u dest q → (∀ x ∈ q.tail, x ∉ visited) →
      ∀ lu, GoodChain net start visited parent u lu →
        ∃ p, bfsAux net dest fuel queue visited parent = some p ∧
          p.length + 1 ≤ lu.length + 1 + q.length := by
  intro fuel
  induction fuel with
  | zero =>
      intro queue visited parent _ hfuel
      exact absurd hfuel (Nat.not_lt_zero _)
  | succ fuel ih =>
      intro queue visited parent inv hfuel u hu q hq htail lu hgcu
      cases queue with
      | nil => simp at hu
      | cons current rest =>
          obtain ⟨lcur, hcur⟩ := inv.chains current (inv.queue_sub current (by simp))
          by_cases hdest : current = dest
          · subst hdest
            have hres : bfsAux net current (fuel + 1) (current :: rest) visited parent =
                some ((current :: lcur).reverse) := by
              simp only [bfsAux, eq_self_iff_true, if_true]
              have hlen : lcur.length < parent.length + 1 :=
                Nat.lt_succ_of_le (chainFrom_length_le hcur.1 hcur.2.1)
              rw [parentChain_eq_of_chainFrom hcur.1 _ hlen]
            refine ⟨(current :: lcur).reverse, hres, ?_⟩
            have hmin : lcur.length ≤ lu.length := bfsInv_head_min inv hcur u hu lu hgcu
            have hqne : q ≠ [] := by
              intro h
              rw [h] at hq
              simp [IsPathFromTo] at hq
            have hqpos : 1 ≤ q.length := by
              cases q with
              | nil => exact absurd rfl hqne
              | cons a b => simp
            simp only [List.length_reverse, List.length_cons]
            omega
          · obtain ⟨fresh, heq, hmem, hcompl, hpres, hfreshchain, inv2⟩ :=
              bfs_step net start current rest visited parent inv lcur hcur
            have hred : bfsAux net dest (fuel + 1) (current :: rest) visited parent =
                bfsAux net dest fuel (rest ++ fresh) (fresh.reverse ++ visited)
                  (fresh.reverse.map (fun nb => (nb, current)) ++ parent) := by
              simp only [bfsAux, if_neg hdest, heq]
            have hvlen : (fresh.reverse ++ visited).length ≤ (net.allIds start).length :=
              bfsInv_visited_le inv2
            have hfuel2 : (rest ++ fresh).length +
                ((net.allIds start).length - (fresh.reverse ++ visited).length) < fuel := by
              simp only [List.length_append, List.length_reverse,
                List.length_cons] at hvlen hfuel ⊢
              omega
            rcases List.mem_cons.mp hu with hcase | hurest
            · -- the popped node itself carries the witness path
              rw [hcase] at hq hgcu
              obtain ⟨hquh, hqlast, hqchain⟩ := hq
              have hlul : lu = lcur := chainFrom_deterministic hgcu.1 hcur.1
              cases q with
              | nil => simp at hquh
              | cons q0 t =>
                  have hq0 : q0 = current := by simpa using hquh
                  subst hq0
                  cases t with
                  | nil =>
                      simp only [List.getLast?_singleton, Option.some.injEq] at hqlast
                      exact absurd hqlast hdest
                  | cons t0 tr =>
                      have hadj : adjStep net q0 t0 := (List.chain'_cons.mp hqchain).1
                      have ht0nv : t0 ∉ visited := htail t0 (by simp)
                      have ht0fresh : t0 ∈ fresh := hcompl t0 hadj ht0nv
                      obtain ⟨t₁, w, t₂, hsplit, hwf, ht₂⟩ :=
                        split_last_mem fresh (t0 :: tr) t0 rfl ht0fresh
                      have hassoc : q0 :: (t₁ ++ w :: t₂) = (q0 :: t₁) ++ w :: t₂ := by
                        simp
                      have hq'last : (w :: t₂).getLast? = some dest := by
                        rw [hsplit, hassoc, List.getLast?_append_cons] at hqlast
                        exact hqlast
                      have hq'chain : List.Chain' (adjStep net) (w :: t₂) := by
                        rw [hsplit, hassoc] at hqchain
                        exact (List.chain'_append.mp hqchain).2.1
                      have hq'tail : ∀ x ∈ (w :: t₂).tail, x ∉ fresh.reverse ++ visited := by
                        intro x hx hmem'
                        have hxt : x ∈ t0 :: tr := by
                          rw [hsplit]
                          exact List.mem_append_right _ (List.mem_cons_of_mem w hx)
                        rcases List.mem_append.mp hmem' with hxf | hxv
                        · exact ht₂ x hx (List.mem_reverse.mp hxf)
                        · exact htail x (by simpa using List.mem_cons_of_mem t0 hxt) hxv
                      obtain ⟨p, hpeq, hpbound⟩ := ih (rest ++ fresh) (fresh.reverse ++ visited)
                        _ inv2 hfuel2 w (List.mem_append_right rest hwf) (w :: t₂)
                        ⟨rfl, hq'last, hq'chain⟩ hq'tail (q0 :: lcur) (hfreshchain w hwf)
                      refine ⟨p, by rw [hred]; exact hpeq, ?_⟩
                      have hslen : (t0 :: tr).length = t₁.length + t₂.length + 1 := by
                        rw [hsplit]
                        simp
                        omega
                      have hlulen : lu.length = lcur.length := by rw [hlul]
                      simp only [List.length_cons] at hpbound hslen ⊢
                      omega
            · -- the witness lives behind in the queue
              have huv : u ∈ visited := inv.queue_sub u (List.mem_cons_of_mem current hurest)
              have huv' : u ∈ fresh.reverse ++ visited := List.mem_append_right _ huv
              obtain ⟨hquh, hqlast, hqchain⟩ := hq
              obtain ⟨q₁, w, q₂, hsplit, hwv', hq₂⟩ :=
                split_last_mem (fresh.reverse ++ visited) q u hquh huv'
              have hq'last : (w :: q₂).getLast? = some dest := by
                rw [hsplit, List.getLast?_append_cons] at hqlast
                exact hqlast
              have hq'chain : List.Chain' (adjStep net) (w :: q₂) := by
                rw [hsplit] at hqchain
                exact (List.chain'_append.mp hqchain).2.1
              have hq'tail : ∀ x ∈ (w :: q₂).tail, x ∉ fresh.reverse ++ visited := by
                intro x hx
                exact hq₂ x hx
              cases q₁ with
              | nil =>
                  have hwu : w = u := by
                    rw [hsplit] at hquh
                    simpa using hquh
                  obtain ⟨p, hpeq, hpbound⟩ := ih (rest ++ fresh) (fresh.reverse ++ visited)
                    _ inv2 hfuel2 w (by rw [hwu]; exact List.mem_append_left _ hurest)
                    (w :: q₂) ⟨rfl, hq'last, hq'chain⟩ hq'tail lu
                    (by rw [hwu]; exact hpres u lu hgcu)
                  refine ⟨p, by rw [hred]; exact hpeq, ?_⟩
                  have hqlen : q.length = q₂.length + 1 := by
                    rw [hsplit]
                    simp
                  simp only [List.length_cons] at hpbound ⊢
                  omega
              | cons y q₁r =>
                  have hwtail : w ∈ q.tail := by
                    rw [hsplit]
                    simp
                  have hwnv : w ∉ visited := htail w hwtail
                  have hwfresh : w ∈ fresh := by
                    rcases List.mem_append.mp hwv' with h | h
                    · exact List.mem_reverse.mp h
                    · exact absurd h hwnv
                  obtain ⟨p, hpeq, hpbound⟩ := ih (rest ++ fresh) (fresh.reverse ++ visited)
                    _ inv2 hfuel2 w (List.mem_append_right rest hwfresh) (w :: q₂)
                    ⟨rfl, hq'last, hq'chain⟩ hq'tail (current :: lcur) (hfreshchain w hwfresh)
                  refine ⟨p, by rw [hred]; exact hpeq, ?_⟩
                  have hmin : lcur.length ≤ lu.length :=
                    bfsInv_head_min inv hcur u hu lu hgcu
                  have hqlen : q.length = q₁r.length + q₂.length + 2 := by
                    rw [hsplit]
                    simp
                    omega
                  simp only [List.length_cons] at hpbound ⊢
                  omega

theorem bfsInv_init (net : Network) (start : Nat) : BfsInv net start [start] [start] [] := by
  have hgc : GoodChain net start [start] [] start [] := by
    refine ⟨ChainFrom.nil start rfl, by simp, by simp, ?_⟩
    refine ⟨by simp, by simp, ?_⟩
    simp
  refine ⟨by simp, ?_, by simp, ?_, ?_, ?_, ?_⟩
  · intro u hu; simpa using hu
  · intro v hv
    simp only [List.mem_singleton] at hv
    subst hv
    exact ⟨[], hgc⟩
  · intro x hx
    simp [lookupKV] at hx
  · intro x hx
    simp only [List.mem_singleton] at hx
    subst hx
    exact List.mem_cons_self _ _
  · refine ⟨[1], ?_, by simp, ?_⟩
    · exact List.Forall₂.cons ⟨[], hgc, rfl⟩ List.Forall₂.nil
    · intro h hh x hx
      simp only [List.head?_cons, Option.mem_def, Option.some.injEq] at hh
      simp only [List.mem_singleton] at hx
      omega

theorem goodChain_start_nil {net : Network} {start : Nat} {l : List Nat}
    (h : GoodChain net start [start] [] start l) : l = [] :=
  chainFrom_deterministic h.1 (ChainFrom.nil start rfl)

/-- C3: `find_path` is a correct and optimal breadth-first search.  When the node
list is non-empty (index 0 exists), every `Ok` result is a stored-adjacency walk
from the local node (index 0) to `dest` of minimum length among all such walks,
and the `PathNotFound dest` error is returned exactly when no such walk exists. -/
theorem find_path_correct (net : Network) (dest : Nat) (root : Node) (tl : List Node)
    (hnodes : net.nodes = root :: tl) :
    (∀ p, net.find_path dest = some (Except.ok p) →
      IsPathFromTo net root.id dest p ∧
        ∀ q, IsPathFromTo net root.id dest q → p.length ≤ q.length) ∧
    (net.find_path dest = some (Except.error (NetworkError.PathNotFound dest)) ↔
      ¬ ∃ q, IsPathFromTo net root.id dest q) := by
  have hfp : net.find_path dest =
      match bfsAux net dest ((net.allIds root.id).length + 1) [root.id] [root.id] [] with
      | some path => some (Except.ok path)
      | none => some (Except.error (NetworkError.PathNotFound dest)) := by
    unfold Network.find_path
    rw [hnodes]
  have inv0 := bfsInv_init net root.id
  have hN1 : 1 ≤ (net.allIds root.id).length := by
    unfold Network.allIds
    simp
  have hfuelok : ([root.id] : List Nat).length +
      ((net.allIds root.id).length - ([root.id] : List Nat).length) <
      (net.allIds root.id).length + 1 := by
    simp only [List.length_singleton]
    omega
  have hcomplete : ∀ q, IsPathFromTo net root.id dest q →
      ∃ p, bfsAux net dest ((net.allIds root.id).length + 1) [root.id] [root.id] [] = some p ∧
        p.length ≤ q.length := by
    intro q hq
    obtain ⟨q', hq', hnd', hle'⟩ := exists_nodup_path net root.id dest q.length q le_rfl hq
    have hq'head := hq'.1
    have htail' : ∀ x ∈ q'.tail, x ∉ ([root.id] : List Nat) := by
      cases q' with
      | nil => simp
      | cons a t =>
          simp only [List.head?_cons, Option.some.injEq] at hq'head
          subst hq'head
          intro x hx hmem
          simp only [List.mem_singleton] at hmem
          subst hmem
          exact (List.nodup_cons.mp hnd').1 hx
    obtain ⟨p, hpeq, hbound⟩ := bfsAux_complete net root.id dest
      ((net.allIds root.id).length + 1) [root.id] [root.id] [] inv0 hfuelok
      root.id (by simp) q' hq' htail' []
      (by
        obtain ⟨l, hgc⟩ := inv0.chains root.id (by simp)
        have hl : l = [] := goodChain_start_nil hgc
        rw [hl] at hgc
        exact hgc)
    refine ⟨p, hpeq, ?_⟩
    simp only [List.length_nil] at hbound
    omega
  constructor
  · intro p hp
    rw [hfp] at hp
    cases hbfs : bfsAux net dest ((net.allIds root.id).length + 1) [root.id] [root.id] [] with
    | none => rw [hbfs] at hp; simp at hp
    | some p₀ =>
        rw [hbfs] at hp
        simp only [Option.some.injEq, Except.ok.injEq] at hp
        subst hp
        refine ⟨bfsAux_sound net root.id dest _ _ _ _ inv0 p₀ hbfs, ?_⟩
        intro q hq
        obtain ⟨p1, hp1eq, hp1b⟩ := hcomplete q hq
        rw [hbfs] at hp1eq
        simp only [Option.some.injEq] at hp1eq
        rw [hp1eq]
        exact hp1b
  · constructor
    · intro herr hexq
      obtain ⟨q, hq⟩ := hexq
      obtain ⟨p1, hp1eq, _⟩ := hcomplete q hq
      rw [hfp, hp1eq] at herr
      simp at herr
    · intro hno
      rw [hfp]
      cases hbfs : bfsAux net dest ((net.allIds root.id).length + 1) [root.id] [root.id] [] with
      | none => rfl
      | some p₀ =>
          exact absurd ⟨p₀, bfsAux_sound net root.id dest _ _ _ _ inv0 p₀ hbfs⟩ hno

/-! Concrete two-node topology exercising `find_path`. -/

def rootW : Node := { id := 1, node_type := NodeType.Client, adjacents := [2] }

def netW3 : Network :=
  (Network.new rootW).add_node { id := 2, node_type := NodeType.Client, adjacents := [1] }

theorem find_path_netW3_eval : netW3.find_path 2 = some (Except.ok [1, 2]) := by
  rfl

/-- C3 witness: the correctness statement instantiated at a concrete two-node
topology with destination 2. -/
theorem find_path_correct_witness :
    netW3.nodes = rootW :: [{ id := 2, node_type := NodeType.Client, adjacents := [1] }] ∧
    ((∀ p, netW3.find_path 2 = some (Except.ok p) →
      IsPathFromTo netW3 rootW.id 2 p ∧
        ∀ q, IsPathFromTo netW3 rootW.id 2 q → p.length ≤ q.length) ∧
    (netW3.find_path 2 = some (Except.error (NetworkError.PathNotFound 2)) ↔
      ¬ ∃ q, IsPathFromTo netW3 rootW.id 2 q)) :=
  ⟨rfl, find_path_correct netW3 2 rootW _ rfl⟩

/-! ## `routing_handler.rs` -/

/-- `wg_internal::network::SourceRoutingHeader`. -/
structure SourceRoutingHeader where
  hop_index : Nat
  hops : List Nat
deriving DecidableEq, Inhabited

def SourceRoutingHeader.new (hops : List Nat) (hop_index : Nat) : SourceRoutingHeader :=
  { hop_index := hop_index, hops := hops }

def SourceRoutingHeader.empty_route : SourceRoutingHeader := { hop_index := 0, hops := [] }

/-- Modelled from the spec: `SourceRoutingHeader::destination` of the underlying
network library (absent from this repository) is the last hop — §3:
"`hops[hops.len-1]` is the destination". -/
def SourceRoutingHeader.destination (self : SourceRoutingHeader) : Option Nat :=
  self.hops.getLast?

def withoutLoopsAux : List Nat → List Nat → List Nat
  | acc, [] => acc
  | acc, h :: rest =>
      match acc.findIdx? (fun x => x == h) with
      | some i => withoutLoopsAux (acc.take (i + 1)) rest
      | none => withoutLoopsAux (acc ++ [h]) rest

/-- Modelled from the spec: `SourceRoutingHeader::without_loops` of the
underlying network library — §4.4.3: "strip any loops (shortcut any repeated id
to its last occurrence while preserving order)". -/
def SourceRoutingHeader.without_loops (self : SourceRoutingHeader) : SourceRoutingHeader :=
  { self with hops := withoutLoopsAux [] self.hops }

structure Ack where
  fragment_index : Nat
deriving DecidableEq, Inhabited

inductive NackType
  | ErrorInRouting (id : Nat)
  | DestinationIsDrone
  | Dropped
  | UnexpectedRecipient (id : Nat)
deriving DecidableEq, Inhabited

structure Nack where
  fragment_index : Nat
  nack_type : NackType
deriving DecidableEq, Inhabited

structure FloodRequest where
  flood_id : Nat
  initiator_id : Nat
  path_trace : List (Nat × NodeType)
deriving DecidableEq, Inhabited

def FloodRequest.new (flood_id : Nat) (initiator_id : Nat) : FloodRequest :=
  { flood_id := flood_id, initiator_id := initiator_id, path_trace := [] }

structure FloodResponse where
  flood_id : Nat
  path_trace : List (Nat × NodeType)
deriving DecidableEq, Inhabited

inductive PacketType
  | MsgFragment (f : Fragment)
  | Ack (a : Ack)
  | Nack (n : Nack)
  | FloodRequest (f : FloodRequest)
  | FloodResponse (f : FloodResponse)
deriving DecidableEq, Inhabited

structure Packet where
  pack_type : PacketType
  routing_header : SourceRoutingHeader
  session_id : Nat
deriving DecidableEq, Inhabited

def Packet.new_fragment (shr : SourceRoutingHeader) (session_id : Nat) (f : Fragment) : Packet :=
  { pack_type := PacketType.MsgFragment f, routing_header := shr, session_id := session_id }

def Packet.new_ack (shr : SourceRoutingHeader) (session_id : Nat) (fragment_index : Nat) : Packet :=
  { pack_type := PacketType.Ack ⟨fragment_index⟩, routing_header := shr, session_id := session_id }

def Packet.new_flood_request (shr : SourceRoutingHeader) (session_id : Nat)
    (fr : FloodRequest) : Packet :=
  { pack_type := PacketType.FloodRequest fr, routing_header := shr, session_id := session_id }

def Packet.new_flood_response (shr : SourceRoutingHeader) (session_id : Nat)
    (fr : FloodResponse) : Packet :=
  { pack_type := PacketType.FloodResponse fr, routing_header := shr, session_id := session_id }

/-- Modelled from the spec: `Fragment::new(index, total, data)` of the underlying
network library wraps a 128-byte array; the effective length rides in the
descriptor (§6). -/
def Fragment.new (fragment_index : Nat) (total_n_fragments : Nat) (data : List Nat) : Fragment :=
  { fragment_index := fragment_index, total_n_fragments := total_n_fragments,
    length := data.length, data := data }

/-- `types::NodeEvent`. -/
inductive NodeEvent
  | PacketSent (p : Packet)
  | FloodStarted (flood_id : Nat) (initiator : Nat)
  | NodeRemoved (id : Nat)
deriving DecidableEq, Inhabited

/-- Observable effect of one handler call: a successful channel delivery to a
neighbor, or a successful send on the controller event channel. -/
inductive Event
  | Delivered (neighbor : Nat) (p : Packet)
  | Controller (e : NodeEvent)
deriving DecidableEq, Inhabited

/-- `routing_handler::Buffer`. -/
structure Buffer where
  packets_received : List ((Nat × Nat) × List (Bool × Packet))
deriving DecidableEq, Inhabited

def Buffer.new : Buffer := { packets_received := [] }

def Buffer.insert (self : Buffer) (packet : Packet) (session_id : Nat) (from_id : Nat) :
    Buffer :=
  let id := (session_id, from_id)
  match lookupKV self.packets_received id with
  | some v => { packets_received := insertKV self.packets_received id (v ++ [(false, packet)]) }
  | none => { packets_received := insertKV self.packets_received id [(false, packet)] }

def Buffer.get_not_received (self : Buffer) (session_id : Nat) (from_id : Nat) :
    Option (List Packet) :=
  (lookupKV self.packets_received (session_id, from_id)).map
    (fun l => (l.filter (fun e => !e.1)).map (fun e => e.2))

/-- `Buffer::mark_as_received`; `none` models the panic of `&f[fragment_index]`
when the index is out of range. -/
def Buffer.mark_as_received (self : Buffer) (session_id : Nat) (fragment_index : Nat)
    (form : Nat) : Option Buffer :=
  let id := (session_id, form)
  match lookupKV self.packets_received id with
  | none => some self
  | some f =>
      if h : fragment_index < f.length then
        let frag := (f.get ⟨fragment_index, h⟩).2
        let f2 := f.set fragment_index (true, frag)
        if f2.all (fun e => e.1) then
          some { packets_received := removeKV self.packets_received id }
        else
          some { packets_received := insertKV self.packets_received id f2 }
      else none

def Buffer.get_fragment_by_id (self : Buffer) (session_id : Nat) (fragment_index : Nat)
    (from_id : Nat) : Option Packet :=
  match lookupKV self.packets_received (session_id, from_id) with
  | some session =>
      match session.get? fragment_index with
      | some rp => if !rp.1 then some rp.2 else none
      | none => none
  | none => none

/-- `routing_handler::RoutingHandler`.  A neighbor's `Sender<Packet>` is
modelled by a boolean saying whether sends on that channel succeed; the
controller channel is modelled as always delivering (its failure is fatal in the
source and never exercised by the claims). -/
structure RoutingHandler where
  id : Nat
  network_view : Network
  neighbors : List (Nat × Bool)
  flood_seen : List (Nat × Nat)
  session_counter : Nat
  flood_counter : Nat
  buffer : Buffer
deriving DecidableEq, Inhabited

def RoutingHandler.new (id : Nat) (node_type : NodeType) (neighbors : List (Nat × Bool)) :
    RoutingHandler :=
  { id := id, network_view := Network.new { id := id, node_type := node_type, adjacents := [] },
    neighbors := neighbors, flood_seen := [], session_counter := 0, flood_counter := 0,
    buffer := Buffer.new }

/-- `RoutingHandler::send`: deliver on the neighbor channel, then emit
`PacketSent` upstream. -/
def RoutingHandler.send (neighbor_id : Nat) (works : Bool) (packet : Packet) :
    Except NetworkError (List Event) :=
  if works then
    Except.ok [Event.Delivered neighbor_id packet,
      Event.Controller (NodeEvent.PacketSent packet)]
  else Except.error (NetworkError.SendError "channel closed")

def RoutingHandler.remove_neighbor (self : RoutingHandler) (node_id : Nat) : RoutingHandler :=
  { self with neighbors := removeKV self.neighbors node_id,
              network_view := self.network_view.remove_node node_id }

def RoutingHandler.add_neighbor (self : RoutingHandler) (node_id : Nat) (works : Bool) :
    RoutingHandler :=
  { self with neighbors := insertKV self.neighbors node_id works,
              network_view :=
                match self.network_view.update_node self.id [node_id] with
                | Except.ok n => n
                | Except.error _ => self.network_view }

/-- `RoutingHandler::start_flood`: bump both counters, emit `FloodStarted`, then
send the request on every neighbor channel (iterating a clone of the map),
removing a neighbor whose channel fails. -/
def RoutingHandler.start_flood (self : RoutingHandler) :
    Except NetworkError Unit × RoutingHandler × List Event :=
  let self1 := { self with session_counter := self.session_counter + 1,
                           flood_counter := self.flood_counter + 1 }
  let packet := Packet.new_flood_request SourceRoutingHeader.empty_route self1.session_counter
    (FloodRequest.new self1.flood_counter self1.id)
  let ev0 := [Event.Controller (NodeEvent.FloodStarted self1.flood_counter self1.id)]
  let step := fun (acc : RoutingHandler × List Event) (nb : Nat × Bool) =>
    if nb.2 then (acc.1, acc.2 ++ [Event.Delivered nb.1 packet])
    else (acc.1.remove_neighbor nb.1, acc.2)
  let res := self1.neighbors.foldl step (self1, ev0)
  (Except.ok (), res.1, res.2)

def RoutingHandler.send_packet_to_first_hop (self : RoutingHandler) (packet : Packet) :
    Except NetworkError (List Event) :=
  if h : 1 < packet.routing_header.hops.length then
    let first_hop := packet.routing_header.hops.get ⟨1, h⟩
    match lookupKV self.neighbors first_hop with
    | some works => RoutingHandler.send first_hop works packet
    | none => Except.error (NetworkError.NodeIsNotANeighbor first_hop)
  else Except.ok []

/-- The `while !packet_sent && neighbors.len() > 0` loop of `try_send`, fuelled:
every `SendError` iteration removes a neighbor, so `neighbors.length + 1` fuel is
always enough and the fuel-out branch is unreachable. -/
def RoutingHandler.try_send_loop (destination : Nat) :
    Nat → RoutingHandler → Packet →
      Option (Except NetworkError Unit × RoutingHandler × List Event)
  | 0, _, _ => none
  | fuel + 1, self, packet =>
      if 0 < self.neighbors.length then
        match self.send_packet_to_first_hop packet with
        | Except.ok evs => some (Except.ok (), self, evs)
        | Except.error (NetworkError.SendError _) =>
            match packet.routing_header.hops.get? 1 with
            | some first_hop =>
                let self2 := self.remove_neighbor first_hop
                match self2.network_view.find_path destination with
                | none => none
                | some (Except.ok route) =>
                    RoutingHandler.try_send_loop destination fuel self2
                      { packet with
                        routing_header := (SourceRoutingHeader.new route 1).without_loops }
                | some (Except.error _) =>
                    some (Except.error (NetworkError.PathNotFound destination), self2, [])
            | none => RoutingHandler.try_send_loop destination fuel self packet
        | Except.error e => some (Except.error e, self, [])
      else some (Except.error NetworkError.NoNeighborAssigned, self, [])

/-- `RoutingHandler::try_send`. -/
def RoutingHandler.try_send (self : RoutingHandler) (packet : Packet) :
    Option (Except NetworkError Unit × RoutingHandler × List Event) :=
  match packet.routing_header.destination with
  | none => some (Except.error NetworkError.NoDestination, self, [])
  | some destination =>
      RoutingHandler.try_send_loop destination (self.neighbors.length + 1) self packet

/-- `RoutingHandler::handle_nack`.  The source matches `ErrorInRouting`,
`Dropped` and `DestinationIsDrone` and ends with a catch-all `_ => {}` arm,
which is exactly the `UnexpectedRecipient` variant. -/
def RoutingHandler.handle_nack (self : RoutingHandler) (nack : Nack) (session_id : Nat)
    (source_id : Nat) : Option (Except NetworkError Unit × RoutingHandler × List Event) :=
  match nack.nack_type with
  | NackType.ErrorInRouting i =>
      let self1 := self.remove_neighbor i
      match self1.start_flood with
      | (Except.error e, self2, ev1) => some (Except.error e, self2, ev1)
      | (Except.ok _, self2, ev1) =>
          match self2.buffer.get_fragment_by_id session_id nack.fragment_index source_id with
          | some packet =>
              match self2.try_send packet with
              | none => none
              | some (Except.ok _, self3, ev2) => some (Except.ok (), self3, ev1 ++ ev2)
              | some (Except.error e, self3, ev2) => some (Except.error e, self3, ev1 ++ ev2)
          | none => some (Except.ok (), self2, ev1)
  | NackType.Dropped =>
      let self1 := { self with network_view := self.network_view.remove_node source_id }
      match self1.start_flood with
      | (r, self2, ev) => some (r, self2, ev)
  | NackType.DestinationIsDrone =>
      some (Except.ok (),
        { self with network_view := self.network_view.change_node_type source_id NodeType.Drone },
        [])
  | NackType.UnexpectedRecipient _ => some (Except.ok (), self, [])

/-- Forward a flood request on every neighbor channel except `prev_hop`; a
failing channel aborts with `SendError` (`?` in the source), keeping the
deliveries that already happened. -/
def forwardAll : List (Nat × Bool) → Nat → Packet → List Event × Option NetworkError
  | [], _, _ => ([], none)
  | (nid, works) :: rest, prev_hop, packet =>
      if nid = prev_hop then forwardAll rest prev_hop packet
      else if works then
        let r := forwardAll rest prev_hop packet
        (Event.Delivered nid packet :: r.1, r.2)
      else ([], some (NetworkError.SendError "channel closed"))

/-- `RoutingHandler::handle_flood_request`. -/
def RoutingHandler.handle_flood_request (self : RoutingHandler) (flood_request : FloodRequest)
    (session_id : Nat) : Option (Except NetworkError Unit × RoutingHandler × List Event) :=
  let prev_hop := (flood_request.path_trace.getLast?.map Prod.fst).getD
    flood_request.initiator_id
  let fr := { flood_request with
    path_trace := flood_request.path_trace ++ [(self.id, NodeType.Drone)] }
  let flood_session := (fr.flood_id, fr.initiator_id)
  let already := flood_session ∈ self.flood_seen
  let self1 := { self with flood_seen :=
    if flood_session ∈ self.flood_seen then self.flood_seen
    else flood_session :: self.flood_seen }
  if already ∨ self1.neighbors.length = 1 then
    match self1.network_view.find_path fr.initiator_id with
    | none => none
    | some res =>
        let route :=
          match res with
          | Except.ok path => SourceRoutingHeader.new path 1
          | Except.error _ =>
              let route0 := (fr.path_trace.map Prod.fst).reverse
              let route1 :=
                if route0.getLast? ≠ some fr.initiator_id
                then route0 ++ [fr.initiator_id] else route0
              SourceRoutingHeader.new route1 1
        let flood_response : FloodResponse :=
          { flood_id := fr.flood_id, path_trace := fr.path_trace }
        let packet := Packet.new_flood_response route session_id flood_response
        match self1.try_send packet with
        | none => none
        | some (r, self2, ev) => some (r, self2, ev)
  else
    let srh := SourceRoutingHeader.new [] 0
    let new_flood_request := Packet.new_flood_request srh session_id fr
    let fwd := forwardAll self1.neighbors prev_hop new_flood_request
    match fwd.2 with
    | none => some (Except.ok (), self1, fwd.1)
    | some e => some (Except.error e, self1, fwd.1)

/-- `message.chunks(128)`, fuelled structurally: each step drops 128 elements of
a non-empty list, so `l.length + 1` fuel is always enough and the fuel-out
branch is unreachable. -/
def chunksFuel : Nat → List Nat → List (List Nat)
  | 0, _ => []
  | _ + 1, [] => []
  | fuel + 1, x :: xs => (x :: xs).take 128 :: chunksFuel fuel ((x :: xs).drop 128)

def chunks128 (l : List Nat) : List (List Nat) := chunksFuel (l.length + 1) l

/-- Pad or truncate a chunk to exactly 128 bytes (`arr[..chunk.len()].copy_from_slice`). -/
def padTo128 (chunk : List Nat) : List Nat :=
  chunk ++ List.replicate (128 - chunk.length) 0

/-- The `for (i, chunk) in chunks` loop of `send_message`: build the fragment
packet, `try_send` it, and on success insert it into the buffer keyed by
`(session_counter, self.id)`. -/
def sendChunksLoop (shr : SourceRoutingHeader) (session : Nat) (total : Nat) :
    Nat → List (List Nat) → RoutingHandler → List Event →
      Option (Except NetworkError Unit × RoutingHandler × List Event)
  | _, [], self, evs => some (Except.ok (), self, evs)
  | i, chunk :: rest, self, evs =>
      let fragment := Fragment.new i total (padTo128 chunk)
      let packet := Packet.new_fragment shr session fragment
      match self.try_send packet with
      | none => none
      | some (Except.error e, self2, ev) => some (Except.error e, self2, evs ++ ev)
      | some (Except.ok _, self2, ev) =>
          let self3 := { self2 with buffer := self2.buffer.insert packet session self2.id }
          sendChunksLoop shr session total (i + 1) rest self3 (evs ++ ev)

/-- `RoutingHandler::send_message`. -/
def RoutingHandler.send_message (self : RoutingHandler) (message : List Nat)
    (destination : Nat) : Option (Except NetworkError Unit × RoutingHandler × List Event) :=
  let chunks := chunks128 message
  let total_n_fragments := chunks.length
  let self1 := { self with session_counter := self.session_counter + 1 }
  match self1.network_view.find_path destination with
  | none => none
  | some (Except.error _) =>
      some (Except.error (NetworkError.PathNotFound destination), self1, [])
  | some (Except.ok route) =>
      let shr := (SourceRoutingHeader.new route 1).without_loops
      sendChunksLoop shr self1.session_counter total_n_fragments 0 chunks self1 []

/-- `RoutingHandler::handle_ack`. -/
def RoutingHandler.handle_ack (self : RoutingHandler) (ack : Ack) (session_id : Nat)
    (from_id : Nat) : Option RoutingHandler :=
  (self.buffer.mark_as_received session_id ack.fragment_index from_id).map
    (fun b => { self with buffer := b })

/-- C10: a packet whose route has exactly one hop is "sent" successfully without
any channel delivery, without a `PacketSent` event, and without touching any
handler state, provided the neighbor map is non-empty. -/
theorem try_send_single_hop_noop (self : RoutingHandler) (packet : Packet)
    (hhops : packet.routing_header.hops.length = 1)
    (hne : self.neighbors ≠ []) :
    self.try_send packet = some (Except.ok (), self, []) := by
  obtain ⟨a, ha⟩ := List.length_eq_one.mp hhops
  have hdest : packet.routing_header.destination = some a := by
    unfold SourceRoutingHeader.destination
    rw [ha]
    rfl
  have hsend : self.send_packet_to_first_hop packet = Except.ok [] := by
    unfold RoutingHandler.send_packet_to_first_hop
    rw [dif_neg (by rw [hhops]; exact lt_irrefl 1)]
  unfold RoutingHandler.try_send
  rw [hdest]
  unfold RoutingHandler.try_send_loop
  rw [if_pos (List.length_pos.mpr hne), hsend]

def rhC10 : RoutingHandler := RoutingHandler.new 1 NodeType.Client [(2, true)]

def pktC10 : Packet := Packet.new_ack (SourceRoutingHeader.new [7] 1) 3 0

/-- C10 witness: concrete single-hop packet against a handler with one neighbor. -/
theorem try_send_single_hop_noop_witness :
    pktC10.routing_header.hops.length = 1 ∧ rhC10.neighbors ≠ [] ∧
      rhC10.try_send pktC10 = some (Except.ok (), rhC10, []) :=
  ⟨rfl, by decide, try_send_single_hop_noop rhC10 pktC10 rfl (by decide)⟩

/-- The packets successfully handed to a neighbor channel within an event trace. -/
def deliveredPackets (evs : List Event) : List Packet :=
  evs.filterMap (fun e => match e with
    | Event.Delivered _ p => some p
    | Event.Controller _ => none)

theorem send_packet_to_first_hop_events (self : RoutingHandler) (packet : Packet)
    (evs : List Event) (h : self.send_packet_to_first_hop packet = Except.ok evs) :
    deliveredPackets evs = [] ∨ deliveredPackets evs = [packet] := by
  simp only [RoutingHandler.send_packet_to_first_hop] at h
  split at h
  · split at h
    · simp only [RoutingHandler.send] at h
      split at h
      · simp only [Except.ok.injEq] at h
        subst h
        right
        rfl
      · cases h
    · cases h
  · simp only [Except.ok.injEq] at h
    subst h
    left
    rfl

theorem try_send_loop_delivered (destination : Nat) :
    ∀ (fuel : Nat) (self : RoutingHandler) (packet : Packet)
      (r : Except NetworkError Unit) (self2 : RoutingHandler) (evs : List Event),
      RoutingHandler.try_send_loop destination fuel self packet = some (r, self2, evs) →
      (deliveredPackets evs).length ≤ 1 ∧
        ∀ p ∈ deliveredPackets evs, p.pack_type = packet.pack_type := by
  intro fuel
  induction fuel with
  | zero =>
      intro self packet r self2 evs h
      simp [RoutingHandler.try_send_loop] at h
  | succ fuel ih =>
      intro self packet r self2 evs h
      simp only [RoutingHandler.try_send_loop] at h
      split at h
      · split at h
        · rename_i evs0 heq
          simp only [Option.some.injEq, Prod.mk.injEq] at h
          obtain ⟨-, -, hevs⟩ := h
          subst hevs
          rcases send_packet_to_first_hop_events self packet evs0 heq with he | he <;>
            simp [he]
        · split at h
          · split at h
            · cases h
            · have hres := ih _ _ _ _ _ h
              exact ⟨hres.1, fun p hp => hres.2 p hp⟩
            · simp only [Option.some.injEq, Prod.mk.injEq] at h
              obtain ⟨-, -, hevs⟩ := h
              subst hevs
              simp [deliveredPackets]
          · exact ih _ _ _ _ _ h
        · simp only [Option.some.injEq, Prod.mk.injEq] at h
          obtain ⟨-, -, hevs⟩ := h
          subst hevs
          simp [deliveredPackets]
      · simp only [Option.some.injEq, Prod.mk.injEq] at h
        obtain ⟨-, -, hevs⟩ := h
        subst hevs
        simp [deliveredPackets]

theorem try_send_delivered (self : RoutingHandler) (packet : Packet)
    (r : Except NetworkError Unit) (self2 : RoutingHandler) (evs : List Event)
    (h : self.try_send packet = some (r, self2, evs)) :
    (deliveredPackets evs).length ≤ 1 ∧
      ∀ p ∈ deliveredPackets evs, p.pack_type = packet.pack_type := by
  unfold RoutingHandler.try_send at h
  cases hd : packet.routing_header.destination with
  | none =>
      rw [hd] at h
      simp only [Option.some.injEq, Prod.mk.injEq] at h
      obtain ⟨-, -, hevs⟩ := h
      subst hevs
      simp [deliveredPackets]
  | some destination =>
      rw [hd] at h
      exact try_send_loop_delivered destination _ self packet r self2 evs h

/-- C9: handling a `FloodRequest` whose `(flood_id, initiator_id)` key is
already in `FloodSeen` forwards the request to no neighbor and delivers at most
one packet, necessarily a `FloodResponse`. -/
theorem handle_flood_request_duplicate_no_forward (self : RoutingHandler)
    (fr : FloodRequest) (session_id : Nat)
    (hseen : (fr.flood_id, fr.initiator_id) ∈ self.flood_seen)
    (r : Except NetworkError Unit) (self2 : RoutingHandler) (evs : List Event)
    (h : self.handle_flood_request fr session_id = some (r, self2, evs)) :
    (deliveredPackets evs).length ≤ 1 ∧
      ∀ p ∈ deliveredPackets evs, ∃ fres, p.pack_type = PacketType.FloodResponse fres := by
  simp only [RoutingHandler.handle_flood_request] at h
  split at h
  · split at h
    · simp at h
    · split at h
      · simp at h
      · rename_i rr ss ee heq
        simp only [Option.some.injEq, Prod.mk.injEq] at h
        obtain ⟨hr, hs, hevs⟩ := h
        subst hevs
        have hts := try_send_delivered _ _ _ _ _ heq
        exact ⟨hts.1, fun p hp => ⟨_, hts.2 p hp⟩⟩
  · rename_i hcond
    exact absurd (Or.inl hseen) hcond

def rhC9 : RoutingHandler :=
  { id := 1,
    network_view := Network.new { id := 1, node_type := NodeType.Client, adjacents := [] },
    neighbors := [(5, true)], flood_seen := [(9, 5)], session_counter := 0,
    flood_counter := 0, buffer := Buffer.new }

def frC9 : FloodRequest :=
  { flood_id := 9, initiator_id := 5, path_trace := [(5, NodeType.Client)] }

/-- C9 witness: a duplicate flood request against a concrete one-neighbor handler. -/
theorem handle_flood_request_duplicate_witness :
    ((frC9.flood_id, frC9.initiator_id) ∈ rhC9.flood_seen) ∧
    ∃ r self2 evs, rhC9.handle_flood_request frC9 3 = some (r, self2, evs) ∧
      ((deliveredPackets evs).length ≤ 1 ∧
        ∀ p ∈ deliveredPackets evs, ∃ fres, p.pack_type = PacketType.FloodResponse fres) :=
  ⟨by decide, _, _, _, rfl,
    handle_flood_request_duplicate_no_forward rhC9 frC9 3 (by decide) _ _ _ rfl⟩

def rhC8 : RoutingHandler :=
  { id := 1,
    network_view := { nodes := [{ id := 1, node_type := NodeType.Client, adjacents := [2] },
                                { id := 2, node_type := NodeType.Drone, adjacents := [1] }] },
    neighbors := [(2, true)], flood_seen := [], session_counter := 0, flood_counter := 0,
    buffer := Buffer.new }

/-- C8 counterexample: on a `Nack` of kind `UnexpectedRecipient(2)` with node 2
present in the topology, `handle_nack` returns the state unchanged: node 2 is
not removed, no flood is started (no event, flood counter untouched).  The
variant falls into the source's catch-all `_ => {}` arm. -/
theorem handle_nack_unexpected_recipient_counterexample :
    rhC8.handle_nack ⟨0, NackType.UnexpectedRecipient 2⟩ 1 2 =
      some (Except.ok (), rhC8, []) ∧
    2 ∈ rhC8.network_view.nodes.map Node.id ∧ rhC8.flood_counter = 0 :=
  ⟨rfl, by decide, rfl⟩

/-- C8 amended: `handle_nack` on `UnexpectedRecipient(id)` is a no-op: it hits
the catch-all arm, removes nothing, starts no flood, emits no event, and
returns success with the state unchanged. -/
theorem handle_nack_unexpected_recipient_noop (self : RoutingHandler)
    (fragment_index : Nat) (i : Nat) (session_id : Nat) (source_id : Nat) :
    self.handle_nack ⟨fragment_index, NackType.UnexpectedRecipient i⟩ session_id source_id =
      some (Except.ok (), self, []) := by
  rfl

def rhC7 : RoutingHandler := (RoutingHandler.new 1 NodeType.Client []).add_neighbor 2 true

/-- C7 counterexample: with a route to node 2 available, `send_message` on the
empty payload returns success — not an `EmptyMessage` error, which does not
exist — and has mutated state: the session counter moved from 0 to 1.  No
packet is sent and the buffer stays empty. -/
theorem send_message_empty_counterexample :
    (rhC7.send_message [] 2).map
        (fun res => (res.1, res.2.1.session_counter, res.2.1.buffer, res.2.2)) =
      some (Except.ok (), 1, Buffer.new, []) := by
  rfl

theorem find_path_cons (net : Network) (destination : Nat) (root : Node) (tl : List Node)
    (h : net.nodes = root :: tl) :
    net.find_path destination =
      match bfsAux net destination ((net.allIds root.id).length + 1) [root.id]
          [root.id] [] with
      | some path => some (Except.ok path)
      | none => some (Except.error (NetworkError.PathNotFound destination)) := by
  unfold Network.find_path
  rw [h]

theorem find_path_isSome (net : Network) (destination : Nat) (root : Node) (tl : List Node)
    (h : net.nodes = root :: tl) : ∃ res, net.find_path destination = some res := by
  rw [find_path_cons net destination root tl h]
  cases hbfs : bfsAux net destination ((net.allIds root.id).length + 1) [root.id]
      [root.id] [] with
  | some p => exact ⟨Except.ok p, rfl⟩
  | none => exact ⟨Except.error (NetworkError.PathNotFound destination), rfl⟩

/-- C7 amended: `send_message` with an empty payload performs no emptiness
check: it increments the session counter, computes a route, sends nothing,
creates no buffer entry, and returns `Ok` when a route exists or
`PathNotFound` when none does. -/
theorem send_message_empty_behavior (self : RoutingHandler) (destination : Nat) :
    self.send_message [] destination =
      (self.network_view.find_path destination).map (fun res =>
        ((match res with
          | Except.ok _ => Except.ok ()
          | Except.error _ => Except.error (NetworkError.PathNotFound destination)),
         { self with session_counter := self.session_counter + 1 }, ([] : List Event))) := by
  simp only [RoutingHandler.send_message]
  cases hfp : self.network_view.find_path destination with
  | none => rfl
  | some res =>
      cases res with
      | ok route => rfl
      | error e => rfl

def rhC2 : RoutingHandler := (RoutingHandler.new 1 NodeType.Client []).add_neighbor 2 true

set_option maxRecDepth 40000 in
/-- C2: the send buffer is keyed inconsistently.  `send_message` stores each
sent fragment under `(session, self.id)` while `handle_ack` marks under
`(session, origin hops[0] = destination)`, so after sending a one-fragment
message from node 1 to node 2 under session 1 and processing the `Ack` for
fragment 0 with origin 2, the entry under `(1, 1)` is still present with its
fragment unacked, and nothing was ever tracked under `(1, 2)`.  This refutes
the claim that acking every fragment clears the entry. -/
theorem send_buffer_key_mismatch :
    ((rhC2.send_message [37] 2).bind (fun res =>
      (res.2.1.handle_ack ⟨0⟩ 1 2).map (fun s2 =>
        (res.1, (Buffer.get_not_received s2.buffer 1 1).map List.length,
         (lookupKV s2.buffer.packets_received (1, 1)).isSome,
         (lookupKV s2.buffer.packets_received (1, 2)).isSome))))
      = some (Except.ok (), some 1, true, false) := by
  rfl
